import Mathlib

/-!
Verification of the theme-generation code: color values and token tables,
the `cave` theme (src/styles/src/themes/cave.ts), the style-tree component
helpers (the `components` module embedded in src/unnamed/part_007), the
editor style tree (src/unnamed/part_008), the color-ramp builder and scheme
assembler (spec-modelled: themes/common/ramps.ts is not in src/), the
`extends`-inheritance resolver (spec-modelled), and the serializer.

Machine reals of the source (TypeScript numbers) are embedded as `Rat`;
colors as hex string plus alpha; fallible code (JavaScript throws) as
`Except`.
-/

namespace Zed

/-- A color value: hex string plus an alpha channel.  In the source a color
token is `{ value: "#rrggbb", type: "color" }` and `withOpacity` re-encodes
the alpha into the hex string via chroma; here the alpha is kept as a
separate rational field of the same value. -/
structure ColorVal where
  hex : String
  alpha : Rat
deriving DecidableEq, Repr

/-- `color` from src/styles/src/tokens (as used by cave.ts): a color token
with full opacity. -/
def color (s : String) : ColorVal := ⟨s, 1⟩

/-- `withOpacity` from src/styles/src/utils/color.ts (as used by cave.ts):
replaces the alpha channel of a color. -/
def withOpacity (c : ColorVal) (a : Rat) : ColorVal := ⟨c.hex, a⟩

/-- Font-weight tokens.  Modelled from the spec: the token table
(`fontWeights` in src/styles/src/tokens) is not under src/; standard
CSS numeric weights are used. -/
def fontWeights_normal : Nat := 400

/-- Bold font-weight token (see `fontWeights_normal`). -/
def fontWeights_bold : Nat := 700

/-- Background color slot names of `Theme["backgroundColor"]`
(keys 100, 300, 500, on300, on500, ok, error, warning, info in cave.ts). -/
inductive BgName where
  | n100 | n300 | n500 | on300 | on500 | ok | error | warning | info
deriving DecidableEq, Repr

/-- Interaction states of one background color slot. -/
inductive StateKey where
  | base | hovered | active | focused
deriving DecidableEq, Repr

/-- One background color slot with its interaction states. -/
structure BgSet where
  base : ColorVal
  hovered : ColorVal
  active : ColorVal
  focused : ColorVal
deriving DecidableEq, Repr

/-- State lookup on a background slot (`theme.backgroundColor[name][state]`). -/
def BgSet.get (s : BgSet) : StateKey → ColorVal
  | .base => s.base
  | .hovered => s.hovered
  | .active => s.active
  | .focused => s.focused

/-- Keys of `Theme["textColor"]` (cave.ts `textColor` table). -/
inductive TextColorName where
  | primary | secondary | muted | placeholder | active | feature
  | ok | error | warning | info
deriving DecidableEq, Repr

/-- Keys of `Theme["borderColor"]` (cave.ts `borderColor` table). -/
inductive BorderColorName where
  | primary | secondary | muted | focused | active | ok | error | warning | info
deriving DecidableEq, Repr

/-- Player index: the TypeScript literal type `1|2|3|4|5|6|7|8` of
`player(theme, playerNumber)` in the components module
(src/unnamed/part_007, line 213).  `p1` is player 1, …, `p8` is player 8. -/
inductive PlayerIndex where
  | p1 | p2 | p3 | p4 | p5 | p6 | p7 | p8
deriving DecidableEq, Repr, Fintype

/-- One entry of the per-player color table.  `buildPlayer` below
constructs these. -/
structure PlayerColor where
  baseColor : ColorVal
  cursorColor : ColorVal
  selectionColor : ColorVal
  borderColor : ColorVal
deriving DecidableEq, Repr

/-- Modelled from the spec: `buildPlayer` lives in themes/theme.ts, which is
not under src/ (cave.ts imports it).  Per spec section 4.2 each player gets a
cursor color at the seed hue and a selection variant with a deterministic,
lower alpha. -/
def buildPlayer (c : ColorVal) : PlayerColor :=
  { baseColor := c
    cursorColor := withOpacity c 1
    selectionColor := withOpacity c (24/100)
    borderColor := withOpacity c (8/10) }

/-- `editor.line` colors of a theme (cave.ts `editor.line`). -/
structure EditorLine where
  active : ColorVal
  highlighted : ColorVal
  inserted : ColorVal
  deleted : ColorVal
  modified : ColorVal
deriving DecidableEq, Repr

/-- `editor.highlight` colors of a theme (cave.ts `editor.highlight`).
The source key `match` is a reserved word here and is embedded as
`matchHl`; `activeMatch` likewise pairs with `activeMatchHl`. -/
structure EditorHighlight where
  selection : ColorVal
  occurrence : ColorVal
  activeOccurrence : ColorVal
  matchingBracket : ColorVal
  matchHl : ColorVal
  activeMatchHl : ColorVal
  related : ColorVal
deriving DecidableEq, Repr

/-- `editor.gutter` colors of a theme (cave.ts `editor.gutter`). -/
structure EditorGutter where
  primary : ColorVal
  active : ColorVal
deriving DecidableEq, Repr

/-- The `editor` color block of a theme (cave.ts `editor`; source keys
`indent_guide` and `indent_guide_active` are camel-cased here). -/
structure EditorColors where
  background : ColorVal
  indentGuide : ColorVal
  indentGuideActive : ColorVal
  line : EditorLine
  highlight : EditorHighlight
  gutter : EditorGutter
deriving DecidableEq, Repr

/-- One syntax-highlight entry: color, weight, optional italic/underline
(cave.ts `Syntax` entries). -/
structure HlStyle where
  color : ColorVal
  weight : Nat
  italic : Bool := false
  underline : Bool := false
deriving DecidableEq, Repr

/-- The syntax-highlight table of a theme (cave.ts `syntax`; that source
field name is a reserved word here, so the field is `tokenStyles`, and the
source key `emphasis.strong` is embedded as `emphasisStrong`). -/
structure HlTable where
  primary : HlStyle
  comment : HlStyle
  punctuation : HlStyle
  constant : HlStyle
  keyword : HlStyle
  function : HlStyle
  type : HlStyle
  variant : HlStyle
  property : HlStyle
  enum : HlStyle
  operator : HlStyle
  string : HlStyle
  number : HlStyle
  boolean : HlStyle
  predictive : HlStyle
  title : HlStyle
  emphasis : HlStyle
  emphasisStrong : HlStyle
  linkUri : HlStyle
  linkText : HlStyle
deriving DecidableEq, Repr

/-- The `Theme` record as produced by cave.ts and consumed by the styleTree
modules: background/border/text/icon color tables, editor colors, the
syntax table (`tokenStyles`, see `HlTable`), the 8-player table, and the
shadow alpha token. -/
structure Theme where
  name : String
  backgroundColor : BgName → BgSet
  borderColor : BorderColorName → ColorVal
  textColor : TextColorName → ColorVal
  iconColor : TextColorName → ColorVal
  editor : EditorColors
  tokenStyles : HlTable
  player : PlayerIndex → PlayerColor
  shadowAlpha : Rat

/-- cave.ts `dark` palette keys 0..3 (0 = darkest, 3 = lightest). -/
def caveDark : Fin 4 → ColorVal
  | 0 => color "#19171c"
  | 1 => color "#26232a"
  | 2 => color "#585260"
  | 3 => color "#655f6d"

/-- cave.ts `light` palette keys 0..3 (0 = lightest, 3 = darkest). -/
def caveLight : Fin 4 → ColorVal
  | 0 => color "#efecf4"
  | 1 => color "#e2dfe7"
  | 2 => color "#8b8792"
  | 3 => color "#7e7887"

/-- cave.ts `colors` table of accent hues. -/
structure CaveColors where
  red : ColorVal := color "#be4678"
  orange : ColorVal := color "#aa573c"
  yellow : ColorVal := color "#a06e3b"
  green : ColorVal := color "#2a9292"
  cyan : ColorVal := color "#398bc6"
  blue : ColorVal := color "#576ddb"
  violet : ColorVal := color "#955ae7"
  magenta : ColorVal := color "#bf40bf"

/-- The cave.ts accent colors. -/
def caveColors : CaveColors := {}

/-- `cave(darkTheme)` from src/styles/src/themes/cave.ts: picks foreground
and background palettes by appearance (`fg = darkTheme ? light : dark`,
`bg = darkTheme ? dark : light`) and assembles the full Theme. -/
def cave (darkTheme : Bool) : Theme :=
  let fg := if darkTheme then caveLight else caveDark
  let bg := if darkTheme then caveDark else caveLight
  let name := if darkTheme then "cave-dark" else "cave-light"
  let c := caveColors
  let accent (a : ColorVal) : BgSet := ⟨a, a, a, a⟩
  let backgroundColor : BgName → BgSet := fun n =>
    match n with
    | .n100 => ⟨bg 1, bg 3, bg 3, bg 3⟩
    | .n300 => ⟨bg 1, bg 3, bg 3, bg 3⟩
    | .n500 => ⟨bg 0, bg 1, bg 1, bg 1⟩
    | .on300 => ⟨bg 0, bg 1, bg 1, bg 1⟩
    | .on500 => ⟨bg 1, bg 3, bg 3, bg 3⟩
    | .ok => accent c.green
    | .error => accent c.red
    | .warning => accent c.yellow
    | .info => accent c.blue
  let borderColor : BorderColorName → ColorVal := fun n =>
    match n with
    | .primary => bg 0
    | .secondary => bg 1
    | .muted => bg 3
    | .focused => bg 3
    | .active => bg 3
    | .ok => c.green
    | .error => c.red
    | .warning => c.yellow
    | .info => c.blue
  let textColor : TextColorName → ColorVal := fun n =>
    match n with
    | .primary => fg 1
    | .secondary => fg 2
    | .muted => fg 2
    | .placeholder => fg 3
    | .active => fg 0
    | .feature => c.blue
    | .ok => c.green
    | .error => c.red
    | .warning => c.yellow
    | .info => c.blue
  let player : PlayerIndex → PlayerColor := fun i =>
    match i with
    | .p1 => buildPlayer c.blue
    | .p2 => buildPlayer c.green
    | .p3 => buildPlayer c.magenta
    | .p4 => buildPlayer c.orange
    | .p5 => buildPlayer c.violet
    | .p6 => buildPlayer c.cyan
    | .p7 => buildPlayer c.red
    | .p8 => buildPlayer c.yellow
  let editor : EditorColors :=
    { background := (backgroundColor .n500).base
      indentGuide := borderColor .muted
      indentGuideActive := borderColor .secondary
      line :=
        { active := withOpacity (fg 0) (7/100)
          highlighted := withOpacity (fg 0) (12/100)
          inserted := (backgroundColor .ok).active
          deleted := (backgroundColor .error).active
          modified := (backgroundColor .info).active }
      highlight :=
        { selection := (player .p1).selectionColor
          occurrence := withOpacity (bg 0) (12/100)
          activeOccurrence := withOpacity (bg 0) (16/100)
          matchingBracket := (backgroundColor .n500).active
          matchHl := withOpacity c.violet (5/10)
          activeMatchHl := withOpacity c.violet (7/10)
          related := (backgroundColor .n500).focused }
      gutter :=
        { primary := textColor .placeholder
          active := textColor .active } }
  let hl (a : ColorVal) (w : Nat) : HlStyle := { color := a, weight := w }
  let tokenStyles : HlTable :=
    { primary := hl (fg 0) fontWeights_normal
      comment := hl (fg 2) fontWeights_normal
      punctuation := hl (fg 2) fontWeights_normal
      constant := hl (fg 3) fontWeights_normal
      keyword := hl c.blue fontWeights_normal
      function := hl c.yellow fontWeights_normal
      type := hl c.cyan fontWeights_normal
      variant := hl c.blue fontWeights_normal
      property := hl c.blue fontWeights_normal
      enum := hl c.orange fontWeights_normal
      operator := hl c.orange fontWeights_normal
      string := hl c.orange fontWeights_normal
      number := hl c.green fontWeights_normal
      boolean := hl c.green fontWeights_normal
      predictive := hl (textColor .muted) fontWeights_normal
      title := hl c.yellow fontWeights_bold
      emphasis := hl (textColor .feature) fontWeights_normal
      emphasisStrong := hl (textColor .feature) fontWeights_bold
      linkUri := { color := c.green, weight := fontWeights_normal, underline := true }
      linkText := { color := c.orange, weight := fontWeights_normal, italic := true } }
  { name := name
    backgroundColor := backgroundColor
    borderColor := borderColor
    textColor := textColor
    iconColor := textColor
    editor := editor
    tokenStyles := tokenStyles
    player := player
    shadowAlpha := 32/100 }

/-! ## Style values and the components module

The styleTree functions build untyped nested records (TypeScript `Object`),
embedded here as the `J` value type.  JavaScript exceptions (property access
on `undefined`) surface as `Except JsError`. -/

/-- A runtime JavaScript error: property access on `undefined`
(`TypeError: cannot read property of undefined`). -/
inductive JsError where
  | typeError
deriving DecidableEq, Repr

/-- An untyped style value: number, plain string, boolean, color, array, or
object (an insertion-ordered field list), as produced by the styleTree
functions and serialized by JSON.stringify. -/
inductive J where
  | num (n : Rat)
  | str (s : String)
  | bool (b : Bool)
  | color (c : ColorVal)
  | arr (xs : List J)
  | obj (fields : List (String × J))

/-- First value bound to key `k` in a field list (JavaScript property
lookup). -/
def findJ (k : String) : List (String × J) → Option J
  | [] => none
  | (k', v) :: rest => if k' = k then some v else findJ k rest

/-- The fields of an object value; a non-object spreads to nothing (the
uses in src only spread records). -/
def jFields : J → List (String × J)
  | .obj fs => fs
  | _ => []

/-- Font families of `core.fontFamily`.  Modelled from the spec: core.ts
is not under src/ (the components module imports it); the spec's token
vocabulary has the `sans` and `mono` families used at every call site. -/
inductive FontFamilyKey where
  | sans | mono
deriving DecidableEq, Repr

/-- Keys of `core.fontSize`.  Modelled from the spec (core.ts not under
src/): the size tokens named at the call sites. -/
inductive FontSizeKey where
  | xs | sm | md | lg
deriving DecidableEq, Repr

/-- Modelled from the spec: the `core.fontFamily` token values (core.ts not
under src/). -/
def fontFamilyValue : FontFamilyKey → String
  | .sans => "Zed Sans"
  | .mono => "Zed Mono"

/-- Modelled from the spec: the `core.fontSize[..].value` numeric tokens
(core.ts not under src/); representative distinct values, ascending. -/
def fontSizeValue : FontSizeKey → Rat
  | .xs => 12
  | .sm => 14
  | .md => 16
  | .lg => 18

/-- The size key name as spread from `...properties` (the TypeScript value
is the literal string). -/
def fontSizeKeyName : FontSizeKey → String
  | .xs => "xs"
  | .sm => "sm"
  | .md => "md"
  | .lg => "lg"

/-- The optional `properties` argument of `text` (src/unnamed/part_007,
lines 180-195): `{ size?; weight? }`. -/
structure TextProperties where
  size : Option FontSizeKey := none
  weight : Option String := none
deriving DecidableEq, Repr

/-- `text` from the components module (src/unnamed/part_007, lines 180-195):

```
const sizeKey = properties.size || fontFamily === "sans" ? "sm" : "md";
const size = core.fontSize[sizeKey].value;
return { family: .., color: .., ...properties, size };
```

`properties` is optional but dereferenced unconditionally: a call without it
throws (embedded as `.error .typeError`).  The `||` binds tighter than the
ternary, so `sizeKey` is `"sm"` whenever `properties.size` is truthy or the
family is `"sans"`.  The returned object spreads `properties` and then
assigns `size`; in JavaScript, assigning an existing key keeps its position,
so when `properties.size` was given the numeric `size` sits at the spread
position, otherwise it is appended after `weight`. -/
def text (theme : Theme) (fontFamily : FontFamilyKey) (col : TextColorName)
    (properties : Option TextProperties) : Except JsError J :=
  match properties with
  | none => .error .typeError
  | some props =>
    let sizeKey := if props.size.isSome || fontFamily == .sans then FontSizeKey.sm else .md
    let size := fontSizeValue sizeKey
    let weightFields : List (String × J) :=
      match props.weight with
      | some w => [("weight", .str w)]
      | none => []
    match props.size with
    | some _ =>
      .ok (.obj ([("family", .str (fontFamilyValue fontFamily)),
                  ("color", .color (theme.textColor col)),
                  ("size", .num size)] ++ weightFields))
    | none =>
      .ok (.obj ([("family", .str (fontFamilyValue fontFamily)),
                  ("color", .color (theme.textColor col))] ++ weightFields ++
                 [("size", .num size)]))

/-- Side options of a border (`{ top?, bottom?, left?, right? }` at the
call sites).  The components version in src (src/unnamed/part_007, lines
197-202) takes no such parameter; callers from a later revision pass one
and JavaScript ignores the extra argument, which the embedding mirrors by
ignoring it. -/
structure BorderSides where
  top : Bool := false
  bottom : Bool := false
  left : Bool := false
  right : Bool := false
deriving DecidableEq, Repr

/-- `border` from the components module (src/unnamed/part_007, lines
197-202): `{ color: theme.borderColor[color].value, width: 1 }`.  The
`_sides` argument models the extra argument some call sites pass, ignored
by this function (see `BorderSides`). -/
def border (theme : Theme) (col : BorderColorName) (_sides : Option BorderSides := none) : J :=
  .obj [("color", .color (theme.borderColor col)), ("width", .num 1)]

/-- The per-player selection record returned by `player`
(src/unnamed/part_007, lines 204-221). -/
structure PlayerSelection where
  cursor : ColorVal
  selection : ColorVal
deriving DecidableEq, Repr

/-- The `Player` interface of the components module. -/
structure Player where
  selection : PlayerSelection
deriving DecidableEq, Repr

/-- `player` from the components module (src/unnamed/part_007, lines
211-221): reads the theme's player table at `playerNumber`. -/
def player (theme : Theme) (playerNumber : PlayerIndex) : Player :=
  { selection :=
      { cursor := (theme.player playerNumber).cursorColor
        selection := (theme.player playerNumber).selectionColor } }

/-- A `PlayerSelection` as it appears inside a style object. -/
def playerSelectionJ (p : PlayerSelection) : J :=
  .obj [("cursor", .color p.cursor), ("selection", .color p.selection)]

/-- `backgroundColor` from the components module (src/unnamed/part_007,
lines 223-229): `theme.backgroundColor[name][state || "base"].value`. -/
def backgroundColor (theme : Theme) (name : BgName) (state : Option StateKey := none) : ColorVal :=
  (theme.backgroundColor name).get (state.getD .base)

/-- `iconColor(theme, name)`.  Modelled from the spec and the call sites:
the components revision in src does not export it; per the data model it
reads the theme's icon color table at `name`. -/
def iconColor (theme : Theme) (name : TextColorName) : ColorVal :=
  theme.iconColor name

/-- `shadow` from the components module (src/unnamed/part_007, lines
231-237): a black shadow at the theme's shadow alpha. -/
def shadow (theme : Theme) : J :=
  .obj [("blur", .num 16),
        ("color", .color ⟨"#000000", theme.shadowAlpha⟩),
        ("offset", .arr [.num 0, .num 2])]

/-- A padding/margin record, field order as written at each call site. -/
def padTLBR (top left bottom right : Rat) : J :=
  .obj [("top", .num top), ("left", .num left),
        ("bottom", .num bottom), ("right", .num right)]

/-- JavaScript assignment of key `k` in an object literal: updates the
first occurrence in place (keeping its position) or appends. -/
def jsAssign : List (String × J) → String → J → List (String × J)
  | [], k, v => [(k, v)]
  | (k', v') :: rest, k, v =>
    if k' = k then (k, v) :: rest else (k', v') :: jsAssign rest k v

/-- The inner `diagnostic(theme, color)` helper of the editor style tree
(src/unnamed/part_008, lines 22-38). -/
def diagnostic (theme : Theme) (col : TextColorName) : Except JsError J := do
  let msgText ← text theme .sans col (some { size := some .sm })
  let msgHighlightText ← text theme .sans col (some { size := some .sm, weight := some "bold" })
  pure (.obj
    [("textScaleFactor", .num (857/1000)),
     ("header", .obj [("border", border theme .primary (some { top := true }))]),
     ("message", .obj [("text", msgText), ("highlightText", msgHighlightText)])])

/-- `editor(theme)` from src/unnamed/part_008 (lines 11-131): the editor
component style tree.  Fields appear in source insertion order; the `text`
calls are sequenced in source evaluation order and each passes an explicit
`size`, so none of them throws. -/
def editor8 (theme : Theme) : Except JsError J := do
  let autocompleteItem : List (String × J) :=
    [("cornerRadius", .num 6),
     ("padding", .obj [("bottom", .num 2), ("left", .num 6), ("right", .num 6), ("top", .num 2)])]
  let dhCode ← text theme .mono .muted (some { size := some .sm })
  let dhMsgHighlight ← text theme .sans .primary (some { size := some .sm, weight := some "bold" })
  let dhMsgText ← text theme .sans .secondary (some { size := some .sm })
  let dpFilename ← text theme .mono .primary (some { size := some .sm })
  let dpPath ← text theme .mono .muted (some { size := some .sm })
  let errorDiag ← diagnostic theme .error
  let warningDiag ← diagnostic theme .warning
  let informationDiag ← diagnostic theme .info
  let hintDiag ← diagnostic theme .info
  let invalidDiag ← diagnostic theme .muted
  pure (.obj
    [("textColor", .color (theme.textColor .secondary)),
     ("background", .color (backgroundColor theme .n300)),
     ("activeLineBackground", .color theme.editor.line.active),
     ("codeActionsIndicator", .color (iconColor theme .secondary)),
     ("diffBackgroundDeleted", .color (backgroundColor theme .error)),
     ("diffBackgroundInserted", .color (backgroundColor theme .ok)),
     ("documentHighlightReadBackground", .color theme.editor.highlight.occurrence),
     ("documentHighlightWriteBackground", .color theme.editor.highlight.occurrence),
     ("errorColor", .color (theme.textColor .error)),
     ("gutterBackground", .color (backgroundColor theme .n300)),
     ("gutterPaddingFactor", .num (5/2)),
     ("highlightedLineBackground", .color theme.editor.line.highlighted),
     ("lineNumber", .color theme.editor.gutter.primary),
     ("lineNumberActive", .color theme.editor.gutter.active),
     ("renameFade", .num (6/10)),
     ("unnecessaryCodeFade", .num (5/10)),
     ("selection", playerSelectionJ (player theme .p1).selection),
     ("guestSelections", .arr
        [playerSelectionJ (player theme .p2).selection,
         playerSelectionJ (player theme .p3).selection,
         playerSelectionJ (player theme .p4).selection,
         playerSelectionJ (player theme .p5).selection,
         playerSelectionJ (player theme .p6).selection,
         playerSelectionJ (player theme .p7).selection,
         playerSelectionJ (player theme .p8).selection]),
     ("autocomplete", .obj
        [("background", .color (backgroundColor theme .n100)),
         ("cornerRadius", .num 6),
         ("padding", .num 6),
         ("border", border theme .secondary),
         ("item", .obj autocompleteItem),
         ("hoveredItem", .obj (autocompleteItem ++
            [("background", .color (backgroundColor theme .n100 (some .hovered)))])),
         ("margin", .obj [("left", .num (-14))]),
         ("matchHighlight", .obj
            [("color", .color theme.tokenStyles.keyword.color),
             ("weight", .num theme.tokenStyles.keyword.weight)]),
         ("selectedItem", .obj (autocompleteItem ++
            [("background", .color (backgroundColor theme .n100 (some .active)))]))]),
     ("diagnosticHeader", .obj
        [("background", .color theme.editor.background),
         ("iconWidthFactor", .num (3/2)),
         ("textScaleFactor", .num (857/1000)),
         ("border", border theme .secondary (some { bottom := true, top := true })),
         ("code", .obj (jFields dhCode ++ [("margin", .obj [("left", .num 10)])])),
         ("message", .obj [("highlightText", dhMsgHighlight), ("text", dhMsgText)])]),
     ("diagnosticPathHeader", .obj
        [("background", .color theme.editor.line.active),
         ("textScaleFactor", .num (857/1000)),
         ("filename", dpFilename),
         ("path", .obj (jFields dpPath ++ [("margin", .obj [("left", .num 12)])]))]),
     ("errorDiagnostic", errorDiag),
     ("warningDiagnostic", warningDiag),
     ("informationDiagnostic", informationDiag),
     ("hintDiagnostic", hintDiag),
     ("invalidErrorDiagnostic", invalidDiag),
     ("invalidHintDiagnostic", invalidDiag),
     ("invalidInformationDiagnostic", invalidDiag),
     ("invalidWarningDiagnostic", invalidDiag)])

/-- The `diagnosticHeader` subtree of the other editor revision
(src/unnamed/part_007, lines 123-149).  Its `code` field spreads
`text(theme, "mono", "muted")` with the `properties` argument omitted and
then reassigns `size: 14`; the `message` texts also omit `properties`.
Sequenced in source evaluation order. -/
def diagnosticHeader7 (theme : Theme) : Except JsError J := do
  let codeText ← text theme .mono .muted none
  let msgHighlight ← text theme .sans .primary none
  let msgText ← text theme .sans .secondary none
  pure (.obj
    [("background", .color theme.editor.background),
     ("iconWidthFactor", .num (3/2)),
     ("textScaleFactor", .num (857/1000)),
     ("border", border theme .secondary (some { bottom := true, top := true })),
     ("code", .obj (jsAssign (jFields codeText) "size" (.num 14) ++
        [("margin", .obj [("left", .num 10)])])),
     ("message", .obj
        [("highlightText", .obj (jsAssign (jsAssign (jFields msgHighlight) "size" (.num 14))
            "weight" (.str "bold"))),
         ("text", .obj (jsAssign (jFields msgText) "size" (.num 14)))])])

/-! ## Serializer

The generation loop (src/unnamed/part_000, lines 80-89) runs
`JSON.stringify(decamelizeTree(app(theme)), null, 2)` per theme and writes
one file per theme.  `decamelizeTree` (utils/decamelizeTree) is not under
src/ and is modelled from the spec: a pure, order-preserving key rename
from camelCase to snake_case.  `JSON.stringify` is modelled by a compact
deterministic rendering in insertion order (the pretty-printer's
whitespace is immaterial to the verified properties). -/

/-- Decimal/slash rendering of a rational (integers render with no
denominator, as JSON numbers). -/
def ratStr (q : Rat) : String :=
  if q.den = 1 then toString q.num else toString q.num ++ "/" ++ toString q.den

/-- Rendering of a color value: the hex string, with a non-unit alpha
appended (chroma encodes alpha into an 8-digit hex; the encoding is
immaterial, only determinism matters). -/
def colorStr (c : ColorVal) : String :=
  if c.alpha = 1 then c.hex else c.hex ++ "/" ++ ratStr c.alpha

/-- Comma-join. -/
def joinComma : List String → String
  | [] => ""
  | [s] => s
  | s :: rest => s ++ "," ++ joinComma rest

mutual

/-- Modelled from the spec: `JSON.stringify` on a style value — stable,
deterministic, object keys in insertion order (never sorted). -/
def jStringify : J → String
  | .num q => ratStr q
  | .str s => "\"" ++ s ++ "\""
  | .bool b => if b then "true" else "false"
  | .color c => "\"" ++ colorStr c ++ "\""
  | .arr xs => "[" ++ joinComma (jStringifyList xs) ++ "]"
  | .obj fs => "\x7b" ++ joinComma (jStringifyFields fs) ++ "\x7d"

/-- Elements of an array, each rendered, in order. -/
def jStringifyList : List J → List String
  | [] => []
  | v :: rest => jStringify v :: jStringifyList rest

/-- Fields of an object, rendered `"key":value`, in insertion order. -/
def jStringifyFields : List (String × J) → List String
  | [] => []
  | (k, v) :: rest => ("\"" ++ k ++ "\":" ++ jStringify v) :: jStringifyFields rest

end

/-- One character of a camelCase key, lowered with a `_` prefix when it was
upper case. -/
def decamelizeChar (c : Char) : List Char :=
  if c.isUpper then ['_', c.toLower] else [c]

/-- Modelled from the spec: the key rename of the flattening pass — a pure
string transform camelCase → snake_case. -/
def decamelize (s : String) : String :=
  String.mk (s.toList.flatMap decamelizeChar)

mutual

/-- Modelled from the spec: `decamelizeTree` (utils/decamelizeTree, not
under src/) — renames every object key, order-preserving, leaves
non-object values untouched. -/
def decamelizeTree : J → J
  | .obj fs => .obj (decamelizeFields fs)
  | .arr xs => .arr (decamelizeList xs)
  | v => v

/-- Key-renamed fields, in the original order. -/
def decamelizeFields : List (String × J) → List (String × J)
  | [] => []
  | (k, v) :: rest => (decamelize k, decamelizeTree v) :: decamelizeFields rest

/-- Renamed elements of an array. -/
def decamelizeList : List J → List J
  | [] => []
  | v :: rest => decamelizeTree v :: decamelizeList rest

end

/-- The per-theme generation step of the loop in src/unnamed/part_000
(lines 80-89): flatten-rename then serialize the style tree. -/
def generate (styleTree : J) : String :=
  jStringify (decamelizeTree styleTree)

/-! ## Color ramp builder and scheme assembler

Modelled from the spec: themes/common/ramps.ts (`colorRamp`,
`createColorScheme`) and the chroma scale machinery are not under src/ —
only the theme seed tables calling them are.  A ramp color's three
channels are its coordinates in the interpolation space (the spec's
perceptual space is abstracted to the coordinates themselves). -/

/-- A seed/sampled color of the ramp subsystem: three coordinates in the
interpolation space, each in [0,1] for in-gamut colors. -/
structure RampColor where
  c1 : Rat
  c2 : Rat
  c3 : Rat
deriving DecidableEq, Repr

/-- Value of one hex digit. -/
def hexDigitVal (c : Char) : Nat :=
  if '0' ≤ c ∧ c ≤ '9' then c.toNat - '0'.toNat
  else if 'a' ≤ c ∧ c ≤ 'f' then c.toNat - 'a'.toNat + 10
  else if 'A' ≤ c ∧ c ≤ 'F' then c.toNat - 'A'.toNat + 10
  else 0

/-- Value of a two-digit hex channel over 255, as a rational in [0,1]. -/
def hexPair (a b : Char) : Rat :=
  ((16 * hexDigitVal a + hexDigitVal b : Nat) : Rat) / 255

/-- Modelled from the spec: `chroma("#rrggbb")` — parse a seed color
literal into ramp coordinates (malformed literals, which never occur in
src, parse to black). -/
def chromaColor (s : String) : RampColor :=
  match s.toList with
  | ['#', r1, r2, g1, g2, b1, b2] => ⟨hexPair r1 r2, hexPair g1 g2, hexPair b1 b2⟩
  | _ => ⟨0, 0, 0⟩

/-- The ramp/scheme error taxonomy of spec section 7. -/
inductive RampError where
  | invalidRamp
  | missingRamp (role : String)
deriving DecidableEq, Repr

/-- A built ramp: the ordered seed colors and the optional domain
breakpoints. -/
structure Scale where
  colors : List RampColor
  domain : Option (List Rat)
deriving DecidableEq, Repr

/-- Modelled from the spec: `buildRamp(seedColors)` (spec section 4.1) —
requires at least 2 seed colors, failing with `InvalidRampError`
otherwise. -/
def buildScale (seeds : List RampColor) : Except RampError Scale :=
  if seeds.length < 2 then .error .invalidRamp else .ok ⟨seeds, none⟩

/-- Breakpoint validity: strictly increasing, every element in [0,1]. -/
def strictIncr01 : List Rat → Bool
  | [] => true
  | [x] => decide (0 ≤ x ∧ x ≤ 1)
  | x :: y :: rest => decide (0 ≤ x ∧ x ≤ 1) && decide (x < y) && strictIncr01 (y :: rest)

/-- Modelled from the spec: `.domain(d)` — attach domain breakpoints to a
ramp; a non-monotonic (or out-of-range, or degenerate) breakpoint list
fails with `InvalidRampError`. -/
def withDomain (s : Scale) (d : List Rat) : Except RampError Scale :=
  if 2 ≤ d.length && strictIncr01 d then .ok ⟨s.colors, some d⟩ else .error .invalidRamp

/-- Clamp a sampling position into [0,1] (spec section 4.1). -/
def clamp01 (p : Rat) : Rat := max 0 (min 1 p)

/-- Channel-wise linear interpolation in the ramp coordinate space. -/
def lerpColor (a b : RampColor) (f : Rat) : RampColor :=
  ⟨a.c1 + f * (b.c1 - a.c1), a.c2 + f * (b.c2 - a.c2), a.c3 + f * (b.c3 - a.c3)⟩

/-- Interpolate an ordered seed sequence at a position in [0,1]: the two
seeds bracketing the position are blended by the position's offset within
their segment. -/
def interpolate (colors : List RampColor) (p : Rat) : RampColor :=
  match colors with
  | [] => ⟨0, 0, 0⟩
  | [c] => c
  | c :: _ :: _ =>
    let n := colors.length
    let t := p * ((n : Rat) - 1)
    let i : Nat := min (n - 2) (max 0 ⌊t⌋).toNat
    let frac := t - (i : Rat)
    lerpColor (colors.getD i c) (colors.getD (i + 1) c) frac

/-- Piecewise-linear position of `p` among the breakpoints: segment index
plus offset within the segment (positions past the ends land on the end
segments, matching the prior clamp). -/
def remapSeg : List Rat → Rat → Nat → Rat
  | d0 :: d1 :: rest, p, i =>
    if rest = [] || p ≤ d1 then (i : Rat) + (p - d0) / (d1 - d0)
    else remapSeg (d1 :: rest) p (i + 1)
  | _, _, i => (i : Rat)

/-- Re-map a clamped position through the optional domain before
interpolation (spec section 4.1): breakpoints map piecewise-linearly onto
uniform positions. -/
def remapThrough (dom : Option (List Rat)) (p : Rat) : Rat :=
  match dom with
  | none => p
  | some d => if 2 ≤ d.length then remapSeg d p 0 / ((d.length : Rat) - 1) else p

/-- `Ramp.sample(position)` (spec section 4.1): clamp, re-map through the
domain, interpolate between the bracketing seeds. -/
def sampleScale (s : Scale) (p : Rat) : RampColor :=
  interpolate s.colors (remapThrough s.domain (clamp01 p))

/-- Modelled from the spec: the dark endpoint `colorRamp` brackets a single
seed with (spec section 8 calls a single seed "expanded to a ramp"):
the seed's hue pulled toward darkness. -/
def darkEndpoint (c : RampColor) : RampColor :=
  ⟨16/100 * c.c1, 16/100 * c.c2, 16/100 * c.c3⟩

/-- Modelled from the spec: the light endpoint `colorRamp` brackets a
single seed with: the seed's hue pulled toward lightness. -/
def lightEndpoint (c : RampColor) : RampColor :=
  ⟨1 - 13/100 * (1 - c.c1), 1 - 13/100 * (1 - c.c2), 1 - 13/100 * (1 - c.c3)⟩

/-- Modelled from the spec: `colorRamp(color)` from themes/common/ramps.ts
(not under src/; called with a single seed at every theme call site, e.g.
src/styles/src/themes/summercamp.ts lines 21-28).  The single seed is
expanded to the three-seed sequence dark endpoint, seed, light endpoint,
and the ramp is built from that sequence. -/
def colorRamp (c : RampColor) : Except RampError Scale :=
  buildScale [darkEndpoint c, c, lightEndpoint c]

/-- The summercamp `neutral` ramp (src/styles/src/themes/summercamp.ts,
lines 9-20): eight seeds with an eight-element domain. -/
def summercampNeutral : Except RampError Scale :=
  (buildScale (["#1c1810", "#2a261c", "#3a3527", "#3a3527",
                "#5f5b45", "#736e55", "#bab696", "#f8f5de"].map chromaColor)).bind
    (fun s => withDomain s [0, 2/10, 38/100, 4/10, 65/100, 7/10, 85/100, 1])

/-- The summercamp `red` ramp (src/styles/src/themes/summercamp.ts,
line 21): a single-seed `colorRamp` call. -/
def summercampRed : Except RampError Scale :=
  colorRamp (chromaColor "#e35142")

/-- The rosé-pine-dawn `neutral` ramp (src/styles/src/themes/
rose-pine-dawn.ts, lines 39-52): eight seeds with the three-element domain
`[0, 0.73, 1]`. -/
def rosePineDawnNeutral : Except RampError Scale :=
  (buildScale (["#575279", "#797593", "#9893A5", "#B5AFB8",
                "#D3CCCC", "#F2E9E1", "#FFFAF3", "#FAF4ED"].map chromaColor)).bind
    (fun s => withDomain s [0, 73/100, 1])

/-- One player slot of an assembled scheme: cursor color plus the
deterministic cursor/selection alphas (spec section 4.2). -/
structure SchemePlayer where
  cursor : RampColor
  cursorAlpha : Rat
  selectionAlpha : Rat
deriving DecidableEq, Repr

/-- An assembled color scheme (spec section 4.2), restricted to the
semantic roles the claims quantify over. -/
structure Scheme where
  name : String
  isLight : Bool
  backgroundBase : RampColor
  backgroundHovered : RampColor
  backgroundActive : RampColor
  borderPrimary : RampColor
  textPrimary : RampColor
  textSecondary : RampColor
  textMuted : RampColor
  players : PlayerIndex → SchemePlayer

/-- Neutral-ramp position of `background.base` on a dark scheme: near the
dark end. -/
def bgBasePos : Rat := 1/10

/-- Neutral-ramp position of `background.hovered` on a dark scheme. -/
def bgHoveredPos : Rat := 3/20

/-- Neutral-ramp position of `background.active` on a dark scheme. -/
def bgActivePos : Rat := 1/5

/-- Neutral-ramp position of `border.primary` on a dark scheme. -/
def borderPrimaryPos : Rat := 1/4

/-- Neutral-ramp position of `text.primary` on a dark scheme: near the
light end. -/
def textPrimaryPos : Rat := 9/10

/-- Neutral-ramp position of `text.secondary` on a dark scheme. -/
def textSecondaryPos : Rat := 3/4

/-- Neutral-ramp position of `text.muted` on a dark scheme. -/
def textMutedPos : Rat := 3/5

/-- Look up a role's ramp; an absent role fails with `MissingRampError`
naming it (spec section 4.2). -/
def lookupRole (ramps : List (String × Scale)) (role : String) : Except RampError Scale :=
  match ramps.find? (fun e => e.1 == role) with
  | some e => .ok e.2
  | none => .error (.missingRamp role)

/-- Modelled from the spec: `createColorScheme(name, isLight, ramps)` from
themes/common/ramps.ts (not under src/).  Each semantic slot samples its
ramp at a fixed position; dark schemes sample backgrounds near the low end
of `neutral` and primary text near the high end, and a light appearance
inverts the sampled end (position `p` becomes `1 - p`).  Player slots each
pin one hue ramp, with a deterministic selection alpha lower than the
cursor alpha. -/
def createColorScheme (name : String) (isLight : Bool)
    (ramps : List (String × Scale)) : Except RampError Scheme := do
  let neutral ← lookupRole ramps "neutral"
  let red ← lookupRole ramps "red"
  let orange ← lookupRole ramps "orange"
  let yellow ← lookupRole ramps "yellow"
  let green ← lookupRole ramps "green"
  let cyan ← lookupRole ramps "cyan"
  let blue ← lookupRole ramps "blue"
  let violet ← lookupRole ramps "violet"
  let magenta ← lookupRole ramps "magenta"
  let adj : Rat → Rat := fun p => if isLight then 1 - p else p
  let hue : PlayerIndex → Scale := fun i =>
    match i with
    | .p1 => blue
    | .p2 => green
    | .p3 => magenta
    | .p4 => orange
    | .p5 => violet
    | .p6 => cyan
    | .p7 => red
    | .p8 => yellow
  pure
    { name := name
      isLight := isLight
      backgroundBase := sampleScale neutral (adj bgBasePos)
      backgroundHovered := sampleScale neutral (adj bgHoveredPos)
      backgroundActive := sampleScale neutral (adj bgActivePos)
      borderPrimary := sampleScale neutral (adj borderPrimaryPos)
      textPrimary := sampleScale neutral (adj textPrimaryPos)
      textSecondary := sampleScale neutral (adj textSecondaryPos)
      textMuted := sampleScale neutral (adj textMutedPos)
      players := fun i =>
        { cursor := sampleScale (hue i) (1/2)
          cursorAlpha := 1
          selectionAlpha := 24/100 } }

/-! ## Style-tree inheritance resolver

Modelled from the spec (sections 3, 4.3 and 9): the resolver of
`extends: "$a.b.c"` references is not under src/ — only trees carrying the
references are (e.g. src/unnamed/part_001, lines 33-64).  A style value is
a scalar or a node; a node carries an optional `extends` path and an
ordered property list.  Resolution looks the referenced path up from the
root, resolves it, deep-copies its resolved properties and overlays the
current node's own resolved properties on top: current values win on key
collision, and nested nodes merge key-by-key.  Unresolvable paths fail
with `DanglingExtendsError`, reference cycles with `CyclicExtendsError`.
Recursion is bounded by explicit fuel (`initFuel`), which makes the
resolver total — it can never loop; a cycle is detected by the visited
set before fuel could matter. -/

/-- A dotted path addressing a node in the style tree
(`"$chatPanel.channelSelect.item"` is `["chatPanel", "channelSelect", "item"]`). -/
abbrev Path := List String

mutual

/-- A style value: scalar (number or string) or nested node. -/
inductive SVal where
  | num (n : Int)
  | str (s : String)
  | node (n : SNode)

/-- A style node: optional `extends` reference plus ordered properties. -/
inductive SNode where
  | mk (ext : Option Path) (props : SProps)

/-- An ordered property list of a style node. -/
inductive SProps where
  | nil
  | cons (k : String) (v : SVal) (rest : SProps)

end

/-- First property bound to key `k`. -/
def findProp (k : String) : SProps → Option SVal
  | .nil => none
  | .cons k' v rest => if k' = k then some v else findProp k rest

/-- Drop every binding of key `k`. -/
def removeKey (k : String) : SProps → SProps
  | .nil => .nil
  | .cons k' v rest => if k' = k then removeKey k rest else .cons k' v (removeKey k rest)

/-- Path lookup from a value: descend node properties key by key. -/
def lookupPath : SVal → Path → Option SVal
  | v, [] => some v
  | .node (.mk _ props), k :: rest =>
    match findProp k props with
    | some v => lookupPath v rest
    | none => none
  | _, _ :: _ => none

mutual

/-- Overlay `own` on top of `inherited`: inherited keys come first in
inherited order, a key declared in both takes `own`'s value (with nested
nodes merged key-by-key via `mergeVal`), and own-only keys follow in own
order. -/
def deepMergeProps : SProps → SProps → SProps
  | .nil, own => own
  | .cons k v rest, own =>
    match findProp k own with
    | some w => .cons k (mergeVal v w) (deepMergeProps rest (removeKey k own))
    | none => .cons k v (deepMergeProps rest own)

/-- Merge one inherited value with the overriding own value: two nodes
merge key-by-key; in every other case the own value wins outright. -/
def mergeVal : SVal → SVal → SVal
  | .node (.mk _ ps), .node (.mk _ qs) => .node (.mk none (deepMergeProps ps qs))
  | _, w => w

end

/-- The resolver error taxonomy (spec section 7); `outOfFuel` is the
artefact of the explicit recursion bound, never reached from `resolveAt`
on the trees the theorems quantify over. -/
inductive ResolveError where
  | danglingExtends (p : Path)
  | cyclicExtends
  | outOfFuel
deriving DecidableEq, Repr

mutual

/-- Resolve one style value against the root tree.  For a node with an
`extends` reference: a reference already on the visited chain fails with
`CyclicExtendsError`; an unresolvable path fails with
`DanglingExtendsError`; otherwise the target is resolved first (the
reference pushed onto the chain), the node's own properties are resolved,
and the own properties are overlaid on the target's resolved properties. -/
def resolveVal (root : SVal) : Nat → SVal → List Path → Except ResolveError SVal
  | 0, _, _ => .error .outOfFuel
  | _ + 1, .num n, _ => .ok (.num n)
  | _ + 1, .str s, _ => .ok (.str s)
  | fuel + 1, .node (.mk ext props), visited =>
    match ext with
    | none => (resolveProps root fuel props).map (fun own => .node (.mk none own))
    | some q =>
      if q ∈ visited then .error .cyclicExtends
      else
        match lookupPath root q with
        | none => .error (.danglingExtends q)
        | some target =>
          (resolveVal root fuel target (q :: visited)).bind fun rt =>
          (resolveProps root fuel props).map fun own =>
          match rt with
          | .node (.mk _ rtProps) => .node (.mk none (deepMergeProps rtProps own))
          | _ => .node (.mk none own)

/-- Resolve each property value in order (each nested value starts a fresh
reference chain). -/
def resolveProps (root : SVal) : Nat → SProps → Except ResolveError SProps
  | 0, _ => .error .outOfFuel
  | _ + 1, .nil => .ok .nil
  | fuel + 1, .cons k v rest =>
    (resolveVal root fuel v []).bind fun rv =>
    (resolveProps root fuel rest).map fun rrest => .cons k rv rrest

end

mutual

/-- Size of a style value (counts every value occurrence). -/
def svalSize : SVal → Nat
  | .num _ => 1
  | .str _ => 1
  | .node (.mk _ props) => 1 + spropsSize props

/-- Total size of the property values. -/
def spropsSize : SProps → Nat
  | .nil => 0
  | .cons _ v rest => svalSize v + spropsSize rest

end

mutual

/-- Every path at which `lookupPath` can succeed in a value. -/
def validPaths : SVal → List Path
  | .num _ => [[]]
  | .str _ => [[]]
  | .node (.mk _ props) => [] :: validPathsProps props

/-- Paths into the property values, each prefixed with its key. -/
def validPathsProps : SProps → List Path
  | .nil => []
  | .cons k v rest => (validPaths v).map (fun p => k :: p) ++ validPathsProps rest

end

/-- Fuel budget of `resolveAt`: comfortably more than the number of
addressable paths, so only a genuine cycle or dangling reference can
fail. -/
def initFuel (root : SVal) : Nat := svalSize root * svalSize root + 1

/-- Resolve the node at path `p` of the tree: look it up and resolve it
with `p` opening the visited chain. -/
def resolveAt (root : SVal) (p : Path) : Except ResolveError SVal :=
  match lookupPath root p with
  | none => .error (.danglingExtends p)
  | some v => resolveVal root (initFuel root) v [p]

/-- The `extends` chain starting at path `p` runs back into the visited
set: `base` when `p`'s own reference is already visited, `step` when `p`'s
reference `q` is fresh and the chain from `q` (with `q` visited) runs back
in.  `HitsChain root [p] p qs` states exactly that the reference chain
from `p` is cyclic, for a cycle of any length (`qs` lists the paths
traversed). -/
inductive HitsChain (root : SVal) : List Path → Path → List Path → Prop where
  | base : ∀ visited p props q,
      lookupPath root p = some (.node (.mk (some q) props)) →
      q ∈ visited → HitsChain root visited p []
  | step : ∀ visited p props q qs,
      lookupPath root p = some (.node (.mk (some q) props)) →
      q ∉ visited → HitsChain root (q :: visited) q qs →
      HitsChain root visited p (q :: qs)

/-- The ramp `summercampRed` evaluates to: the `#e35142` seed expanded to
three stops. -/
def summercampRedScale : Scale :=
  ⟨[darkEndpoint (chromaColor "#e35142"), chromaColor "#e35142",
    lightEndpoint (chromaColor "#e35142")], none⟩

/-- The scale `summercampNeutral` evaluates to. -/
def summercampNeutralScale : Scale :=
  ⟨["#1c1810", "#2a261c", "#3a3527", "#3a3527",
    "#5f5b45", "#736e55", "#bab696", "#f8f5de"].map chromaColor,
   some [0, 2/10, 38/100, 4/10, 65/100, 7/10, 85/100, 1]⟩

/-- The scale `rosePineDawnNeutral` evaluates to: eight seed colors, three
domain breakpoints. -/
def rosePineDawnNeutralScale : Scale :=
  ⟨["#575279", "#797593", "#9893A5", "#B5AFB8",
    "#D3CCCC", "#F2E9E1", "#FFFAF3", "#FAF4ED"].map chromaColor,
   some [0, 73/100, 1]⟩

/-- The own properties of node `a` of `treeAB`: declares `k` (a scalar also
declared by `b`) and the nested node `n` (also declared by `b`). -/
def treeABownA : SProps :=
  .cons "k" (.str "A") (
  .cons "n" (.node (.mk none (.cons "x" (.num 1) .nil))) .nil)

/-- A small two-node tree in the shape of the src trees (e.g. the
`chatPanel` nodes of src/unnamed/part_001): `a` extends `b`; both declare
the scalar `k` and the nested node `n`; `b` additionally declares `m` and
`n.y`. -/
def treeAB : SVal :=
  .node (.mk none (
    .cons "a" (.node (.mk (some ["b"]) treeABownA)) (
    .cons "b" (.node (.mk none (
      .cons "k" (.str "B") (
      .cons "m" (.num 7) (
      .cons "n" (.node (.mk none (.cons "x" (.num 9) (.cons "y" (.num 2) .nil)))) .nil))))) .nil)))

/-- The resolved properties of `treeAB`'s node `a`: inherited key order,
`k` overridden by `a`, `m` inherited, `n` merged key-by-key. -/
def treeABresA : SProps :=
  .cons "k" (.str "A") (
  .cons "m" (.num 7) (
  .cons "n" (.node (.mk none (.cons "x" (.num 1) (.cons "y" (.num 2) .nil)))) .nil))

/-- A tree with a two-node reference cycle: `x` extends `y` and `y`
extends `x` (the shape of spec section 8's cycle test). -/
def treeXY : SVal :=
  .node (.mk none (
    .cons "x" (.node (.mk (some ["y"]) .nil)) (
    .cons "y" (.node (.mk (some ["x"]) .nil)) .nil)))

/-- A tree whose node `s` extends itself. -/
def treeSelf : SVal :=
  .node (.mk none (.cons "s" (.node (.mk (some ["s"]) .nil)) .nil))

/-! ## Lemmas and claim theorems -/

/-- Clamping from below. -/
lemma clamp01_of_nonpos {p : Rat} (h : p ≤ 0) : clamp01 p = 0 := by
  unfold clamp01
  rw [min_eq_right (h.trans zero_le_one), max_eq_left h]

/-- Clamping from above. -/
lemma clamp01_of_one_le {p : Rat} (h : 1 ≤ p) : clamp01 p = 1 := by
  unfold clamp01
  rw [min_eq_left h, max_eq_right (by norm_num)]

/-- Key renaming of the flattening pass preserves the key order. -/
lemma decamelizeFields_keys (fields : List (String × J)) :
    (decamelizeFields fields).map Prod.fst = fields.map (fun kv => decamelize kv.1) := by
  induction fields with
  | nil => rfl
  | cons kv rest ih =>
    cases kv
    simp [decamelizeFields, ih]

/-- C5: theme generation is deterministic — the generation step is a pure
function, so serializing the style tree built from the same seed twice
yields byte-for-byte identical text (in particular for the editor subtree
built from any theme), and the flattening rename keeps the
insertion-preserved key order. -/
theorem generation_deterministic :
    (∀ styleTree : J, generate styleTree = generate styleTree) ∧
    (∀ t : Theme, (editor8 t).map generate = (editor8 t).map generate) ∧
    (∀ fields : List (String × J),
      (decamelizeFields fields).map Prod.fst = fields.map (fun kv => decamelize kv.1)) := by
  exact ⟨fun _ => rfl, fun _ => rfl, decamelizeFields_keys⟩

/-- C7: a ramp built from two seeds `[c0, c1]` samples exactly `c0` at
position 0 and exactly `c1` at position 1, and positions outside [0,1] are
clamped to the endpoints. -/
theorem ramp_endpoint_fidelity (c0 c1 : RampColor) :
    ∃ R, buildScale [c0, c1] = .ok R ∧
      sampleScale R 0 = c0 ∧ sampleScale R 1 = c1 ∧
      (∀ p : Rat, p ≤ 0 → sampleScale R p = sampleScale R 0) ∧
      (∀ p : Rat, 1 ≤ p → sampleScale R p = sampleScale R 1) := by
  refine ⟨⟨[c0, c1], none⟩, rfl, ?_, ?_, ?_, ?_⟩
  · obtain ⟨a, b, c⟩ := c0
    simp [sampleScale, remapThrough, clamp01, interpolate, lerpColor]
  · obtain ⟨a, b, c⟩ := c0
    obtain ⟨a', b', c'⟩ := c1
    simp [sampleScale, remapThrough, clamp01, interpolate, lerpColor]
    refine ⟨by ring, by ring, by ring⟩
  · intro p hp
    unfold sampleScale
    rw [clamp01_of_nonpos hp, clamp01_of_nonpos (le_refl 0)]
  · intro p hp
    unfold sampleScale
    rw [clamp01_of_one_le hp, clamp01_of_one_le (le_refl 1)]

/-- Witness for C7 at the black/white seeds with out-of-range positions
−2 and 5. -/
theorem ramp_endpoint_fidelity_witness :
    ∃ R, buildScale [(⟨0, 0, 0⟩ : RampColor), ⟨1, 1, 1⟩] = .ok R ∧
      sampleScale R 0 = ⟨0, 0, 0⟩ ∧ sampleScale R 1 = ⟨1, 1, 1⟩ ∧
      sampleScale R (-2) = sampleScale R 0 ∧ sampleScale R 5 = sampleScale R 1 := by
  obtain ⟨R, h1, h2, h3, h4, h5⟩ := ramp_endpoint_fidelity ⟨0, 0, 0⟩ ⟨1, 1, 1⟩
  exact ⟨R, h1, h2, h3, h4 (-2) (by norm_num), h5 5 (by norm_num)⟩

/-- C9: calling the `text` helper with the `properties` argument omitted is
not total — it fails instead of returning a style record — and the
`diagnosticHeader` style subtree of src/unnamed/part_007 invokes it that
way (`text(theme, "mono", "muted")` at line 132), so it fails for every
theme. -/
theorem text_without_properties_throws :
    (∀ (t : Theme) (fam : FontFamilyKey) (col : TextColorName),
      text t fam col none = .error .typeError) ∧
    (∀ t : Theme, diagnosticHeader7 t = .error .typeError) := by
  exact ⟨fun _ _ _ => rfl, fun _ => rfl⟩

/-- C10: for every theme, the editor style's `selection` field is player
1's selection colors and `guestSelections` is exactly the selections of
players 2 through 8 in ascending order; the player index type has exactly
8 entries (the TypeScript keys 1..8). -/
theorem editor_selection_guest_selections :
    (∀ t : Theme, ∃ fields, editor8 t = .ok (.obj fields) ∧
      findJ "selection" fields = some (playerSelectionJ (player t .p1).selection) ∧
      findJ "guestSelections" fields = some (.arr
        [playerSelectionJ (player t .p2).selection,
         playerSelectionJ (player t .p3).selection,
         playerSelectionJ (player t .p4).selection,
         playerSelectionJ (player t .p5).selection,
         playerSelectionJ (player t .p6).selection,
         playerSelectionJ (player t .p7).selection,
         playerSelectionJ (player t .p8).selection])) ∧
    Fintype.card PlayerIndex = 8 := by
  refine ⟨fun t => ⟨_, rfl, ?_, ?_⟩, ?_⟩
  · rfl
  · rfl
  · rfl

/-- C8: whenever a size is requested (`properties.size` truthy), the
returned record's `size` is the `"sm"` font-size token value — the `||`
binds inside the ternary's condition — and the `"md"` value is returned
only when no size was requested and the family is not `"sans"`. -/
theorem text_size_precedence :
    (∀ (t : Theme) (fam : FontFamilyKey) (col : TextColorName) (props : TextProperties),
      props.size.isSome = true →
      ∃ fields, text t fam col (some props) = .ok (.obj fields) ∧
        findJ "size" fields = some (.num (fontSizeValue .sm))) ∧
    (∀ (t : Theme) (fam : FontFamilyKey) (col : TextColorName) (props : TextProperties)
        (fields : List (String × J)),
      text t fam col (some props) = .ok (.obj fields) →
      findJ "size" fields = some (.num (fontSizeValue .md)) →
      props.size = none ∧ fam ≠ FontFamilyKey.sans) := by
  constructor
  · intro t fam col props h
    obtain ⟨psize, pweight⟩ := props
    obtain ⟨k, rfl⟩ := Option.isSome_iff_exists.mp h
    cases pweight <;> simp [text, findJ]
  · intro t fam col props fields hok hmd
    obtain ⟨psize, pweight⟩ := props
    cases psize with
    | some k =>
      exfalso
      cases pweight <;>
        · simp [text] at hok
          subst hok
          simp [findJ, fontSizeValue] at hmd
    | none =>
      cases fam with
      | sans =>
        exfalso
        cases pweight <;>
          · simp [text] at hok
            subst hok
            simp [findJ, fontSizeValue] at hmd
      | mono => exact ⟨rfl, by decide⟩

/-- Witness for C8: requesting `"lg"` still yields the `"sm"` token value
(14, not 18), and a call that did return the `"md"` value had no size
requested and a non-sans family. -/
theorem text_size_precedence_witness :
    (∃ fields,
      text (cave true) .mono .muted (some { size := some .lg }) = .ok (.obj fields) ∧
      findJ "size" fields = some (.num (fontSizeValue .sm))) ∧
    (({ size := none, weight := none } : TextProperties).size = none ∧
      FontFamilyKey.mono ≠ FontFamilyKey.sans) := by
  constructor
  · exact text_size_precedence.1 (cave true) .mono .muted { size := some .lg } rfl
  · exact text_size_precedence.2 (cave true) .mono .muted { size := none, weight := none }
      _ rfl rfl

/-- C2 counterexample: the ramp-builder call at
src/styles/src/themes/summercamp.ts line 21 passes a single seed color and
produces a ramp (the seed expanded to three stops) instead of failing with
`InvalidRampError`. -/
theorem single_seed_ramp_call_succeeds :
    ∃ r, summercampRed = .ok r ∧ r.colors.length = 3 ∧
      summercampRed ≠ .error .invalidRamp := by
  refine ⟨summercampRedScale, rfl, rfl, fun h => ?_⟩
  rw [show summercampRed = .ok summercampRedScale from rfl] at h
  exact Except.noConfusion h

/-- C2 (amended): the multi-seed ramp builder requires at least 2 seed
colors and fails with `InvalidRampError` on fewer; the single-seed helper
`colorRamp` used at the cited call sites never fails — it expands its one
seed into the three-seed sequence dark endpoint, seed, light endpoint
before building. -/
theorem ramp_builder_seed_arity :
    (∀ seeds : List RampColor, seeds.length < 2 → buildScale seeds = .error .invalidRamp) ∧
    (∀ c : RampColor, ∃ r, colorRamp c = .ok r ∧
      r.colors = [darkEndpoint c, c, lightEndpoint c]) := by
  constructor
  · intro seeds h
    unfold buildScale
    rw [if_pos h]
  · intro c
    exact ⟨_, rfl, rfl⟩

/-- Witness for C2's amended theorem: one seed fails the multi-seed
builder; `colorRamp` expands a concrete seed. -/
theorem ramp_builder_seed_arity_witness :
    buildScale [(⟨0, 0, 0⟩ : RampColor)] = .error .invalidRamp ∧
    ∃ r, colorRamp (⟨1, 0, 0⟩ : RampColor) = .ok r ∧
      r.colors = [darkEndpoint ⟨1, 0, 0⟩, ⟨1, 0, 0⟩, lightEndpoint ⟨1, 0, 0⟩] := by
  exact ⟨ramp_builder_seed_arity.1 [⟨0, 0, 0⟩] (by decide),
         ramp_builder_seed_arity.2 ⟨1, 0, 0⟩⟩

/-- C3 counterexample: the neutral ramp of
src/styles/src/themes/rose-pine-dawn.ts (lines 39-52) is built from eight
seeds with the three-element domain `[0, 0.73, 1]` — the domain's length
does not equal the seed sequence's length, yet the ramp builds. -/
theorem rose_pine_dawn_domain_mismatch :
    ∃ s, rosePineDawnNeutral = .ok s ∧ s.colors.length = 8 ∧
      s.domain = some [0, 73/100, 1] ∧
      [(0 : Rat), 73/100, 1].length ≠ s.colors.length := by
  have hok : rosePineDawnNeutral = .ok rosePineDawnNeutralScale := by
    unfold rosePineDawnNeutral rosePineDawnNeutralScale
    norm_num [buildScale, withDomain, strictIncr01, Except.bind]
  exact ⟨rosePineDawnNeutralScale, hok, rfl, rfl, by decide⟩

/-- C3 (amended): the optional domain must be strictly increasing within
[0,1] — a non-monotonic domain fails with `InvalidRampError` — and
sampling re-maps the position through the domain before interpolating; the
domain's length need not equal the seed count (summercamp's neutral ramp
matches lengths 8/8, rosé-pine-dawn's builds with lengths 3/8). -/
theorem domain_remap_properties :
    (∀ (s : Scale) (d : List Rat), strictIncr01 d = false →
      withDomain s d = .error .invalidRamp) ∧
    (∀ (s : Scale) (p : Rat),
      sampleScale s p = interpolate s.colors (remapThrough s.domain (clamp01 p))) ∧
    (∃ s, summercampNeutral = .ok s ∧ s.colors.length = 8 ∧
      s.domain = some [0, 2/10, 38/100, 4/10, 65/100, 7/10, 85/100, 1] ∧
      strictIncr01 [0, 2/10, 38/100, 4/10, 65/100, 7/10, 85/100, 1] = true) ∧
    (∃ s, rosePineDawnNeutral = .ok s ∧
      strictIncr01 [0, 73/100, 1] = true) := by
  have hsc : summercampNeutral = .ok summercampNeutralScale := by
    unfold summercampNeutral summercampNeutralScale
    norm_num [buildScale, withDomain, strictIncr01, Except.bind]
  have hrpd : rosePineDawnNeutral = .ok rosePineDawnNeutralScale := by
    unfold rosePineDawnNeutral rosePineDawnNeutralScale
    norm_num [buildScale, withDomain, strictIncr01, Except.bind]
  refine ⟨?_, fun s p => rfl,
    ⟨summercampNeutralScale, hsc, rfl, rfl, by norm_num [strictIncr01]⟩,
    ⟨rosePineDawnNeutralScale, hrpd, by norm_num [strictIncr01]⟩⟩
  intro s d h
  unfold withDomain
  rw [h]
  simp

/-- Witness for C3's amended theorem: a decreasing domain is rejected. -/
theorem domain_remap_properties_witness :
    withDomain ⟨[⟨0, 0, 0⟩, ⟨1, 1, 1⟩], none⟩ [1/2, 1/4] = .error .invalidRamp ∧
    sampleScale ⟨[⟨0, 0, 0⟩, ⟨1, 1, 1⟩], none⟩ (1/2) =
      interpolate [⟨0, 0, 0⟩, ⟨1, 1, 1⟩] (remapThrough none (clamp01 (1/2))) := by
  exact ⟨domain_remap_properties.1 ⟨[⟨0, 0, 0⟩, ⟨1, 1, 1⟩], none⟩ [1/2, 1/4]
           (by norm_num [strictIncr01]),
         domain_remap_properties.2.1 ⟨[⟨0, 0, 0⟩, ⟨1, 1, 1⟩], none⟩ (1/2)⟩

/-- C4: a dark scheme samples `background.base` from the neutral ramp near
position 0 and `text.primary` near position 1; assembling the same ramps
with the light appearance samples the reflected positions (each `p`
becomes `1 − p`), inverting the sampled end per role.  The cave theme in
src shows the same inversion discretely: its dark variant's base
background is the darkest palette entry and its light variant's the
lightest, with primary text drawn from the opposite palette. -/
theorem scheme_appearance_inversion :
    (∀ (name : String) (n r o y g c b v m : Scale),
      ∃ sD sL,
        createColorScheme name false
          [("neutral", n), ("red", r), ("orange", o), ("yellow", y), ("green", g),
           ("cyan", c), ("blue", b), ("violet", v), ("magenta", m)] = .ok sD ∧
        createColorScheme name true
          [("neutral", n), ("red", r), ("orange", o), ("yellow", y), ("green", g),
           ("cyan", c), ("blue", b), ("violet", v), ("magenta", m)] = .ok sL ∧
        sD.backgroundBase = sampleScale n bgBasePos ∧ bgBasePos ≤ 1/4 ∧
        sD.textPrimary = sampleScale n textPrimaryPos ∧ 3/4 ≤ textPrimaryPos ∧
        sL.backgroundBase = sampleScale n (1 - bgBasePos) ∧
        sL.textPrimary = sampleScale n (1 - textPrimaryPos)) ∧
    ((cave true).backgroundColor .n500).base = color "#19171c" ∧
    (cave true).textColor .primary = color "#e2dfe7" ∧
    ((cave false).backgroundColor .n500).base = color "#efecf4" ∧
    (cave false).textColor .primary = color "#26232a" := by
  refine ⟨?_, rfl, rfl, rfl, rfl⟩
  intro name n r o y g c b v m
  exact ⟨_, _, rfl, rfl, rfl, by norm_num [bgBasePos], rfl,
    by norm_num [textPrimaryPos], rfl, rfl⟩

/-! ### Resolver lemmas -/

/-- Lookup after dropping a key. -/
theorem findProp_removeKey : ∀ (k k' : String) (ps : SProps),
    findProp k (removeKey k' ps) = if k' = k then none else findProp k ps
  | k, k', .nil => by simp [removeKey, findProp]
  | k, k', .cons k2 v rest => by
    have ih := findProp_removeKey k k' rest
    by_cases h2 : k2 = k'
    · subst h2
      by_cases hk : k2 = k
      · subst hk
        simp [removeKey, findProp, ih]
      · simp [removeKey, findProp, hk, ih]
    · by_cases hk : k2 = k
      · subst hk
        have hne : ¬ k' = k2 := fun h => h2 h.symm
        simp [removeKey, findProp, h2, hne]
      · simp [removeKey, findProp, h2, hk, ih]

/-- Characterization of the deep merge at one key: a key declared on both
sides merges the two values (own winning except node-with-node, which
merges key-by-key); a key declared on one side keeps that side's value. -/
theorem findProp_deepMerge : ∀ (k : String) (inh own : SProps),
    findProp k (deepMergeProps inh own) =
      match findProp k inh, findProp k own with
      | some v, some w => some (mergeVal v w)
      | some v, none => some v
      | none, _ => findProp k own
  | k, .nil, own => by simp [deepMergeProps, findProp]
  | k, .cons k2 v rest, own => by
    have ih1 := findProp_deepMerge k rest (removeKey k2 own)
    have ih2 := findProp_deepMerge k rest own
    cases h2 : findProp k2 own with
    | some w =>
      by_cases hk : k2 = k
      · subst hk
        simp [deepMergeProps, h2, findProp]
      · simp only [deepMergeProps, h2, findProp, hk, if_false, ih1,
          findProp_removeKey]
    | none =>
      by_cases hk : k2 = k
      · subst hk
        simp [deepMergeProps, h2, findProp]
      · simp only [deepMergeProps, h2, findProp, hk, if_false, ih2]

/-- A string scalar resolves to itself (when fuel remains). -/
lemma resolveVal_str (root : SVal) (fuel : Nat) (s : String) (visited : List Path)
    (h : 0 < fuel) : resolveVal root fuel (.str s) visited = .ok (.str s) := by
  cases fuel with
  | zero => exact absurd h (lt_irrefl 0)
  | succ f => rfl

/-- Property resolution keeps every scalar string property. -/
theorem resolveProps_findProp_str :
    ∀ (root : SVal) (ps : SProps) (fuel : Nat) (own : SProps) (k s : String),
      resolveProps root fuel ps = .ok own →
      findProp k ps = some (.str s) →
      findProp k own = some (.str s)
  | root, .nil, fuel, own, k, s => by
    intro hok hfind
    simp [findProp] at hfind
  | root, .cons k2 v rest, fuel, own, k, s => by
    intro hok hfind
    cases fuel with
    | zero => simp [resolveProps] at hok
    | succ f =>
      simp only [resolveProps] at hok
      cases hrv : resolveVal root f v [] with
      | error e =>
        simp only [hrv, Except.bind] at hok
        exact Except.noConfusion hok
      | ok rv =>
        simp only [hrv, Except.bind] at hok
        cases hrest : resolveProps root f rest with
        | error e =>
          simp only [hrest, Except.map] at hok
          exact Except.noConfusion hok
        | ok orest =>
          simp only [hrest, Except.map, Except.ok.injEq] at hok
          subst hok
          by_cases hk : k2 = k
          · subst hk
            simp only [findProp, if_pos trivial, if_true, eq_self_iff_true] at hfind ⊢
            obtain rfl : v = .str s := by
              cases hfind
              rfl
            have hrv2 : rv = .str s := by
              cases f with
              | zero => simp [resolveVal] at hrv
              | succ f2 =>
                simp only [resolveVal, Except.ok.injEq] at hrv
                exact hrv.symm
            rw [hrv2]
          · simp only [findProp, if_neg hk] at hfind ⊢
            exact resolveProps_findProp_str root rest f orest k s hrest hfind

/-- A resolved node is a node with no remaining reference. -/
lemma resolveVal_node_shape (root : SVal) (fuel : Nat) (e : Option Path) (ps : SProps)
    (visited : List Path) (w : SVal)
    (h : resolveVal root fuel (.node (.mk e ps)) visited = .ok w) :
    ∃ ws, w = .node (.mk none ws) := by
  cases fuel with
  | zero => simp [resolveVal] at h
  | succ f =>
    cases e with
    | none =>
      simp only [resolveVal] at h
      cases hps : resolveProps root f ps with
      | error e2 =>
        simp only [hps, Except.map] at h
        exact Except.noConfusion h
      | ok own =>
        simp only [hps, Except.map, Except.ok.injEq] at h
        exact ⟨own, h.symm⟩
    | some q =>
      simp only [resolveVal] at h
      by_cases hq : q ∈ visited
      · rw [if_pos hq] at h
        simp at h
      · rw [if_neg hq] at h
        cases hlk : lookupPath root q with
        | none =>
          simp only [hlk] at h
          exact Except.noConfusion h
        | some target =>
          simp only [hlk] at h
          cases hrt : resolveVal root f target (q :: visited) with
          | error e2 =>
            simp only [hrt, Except.bind] at h
            exact Except.noConfusion h
          | ok rt =>
            simp only [hrt, Except.bind] at h
            cases hps : resolveProps root f ps with
            | error e2 =>
              simp only [hps, Except.map] at h
              exact Except.noConfusion h
            | ok own =>
              simp only [hps, Except.map, Except.ok.injEq] at h
              cases rt with
              | num n => exact ⟨own, h.symm⟩
              | str s2 => exact ⟨own, h.symm⟩
              | node n2 =>
                cases n2 with
                | mk e2 rtProps => exact ⟨deepMergeProps rtProps own, h.symm⟩

/-- Every cyclic chain starts with a successful lookup of a referencing
node. -/
lemma hitsLookup {root : SVal} {visited : List Path} {p : Path} {qs : List Path}
    (h : HitsChain root visited p qs) :
    ∃ props q, lookupPath root p = some (.node (.mk (some q) props)) := by
  cases h with
  | base visited p props q hl hm => exact ⟨props, q, hl⟩
  | step visited p props q qs hl hn hs => exact ⟨props, q, hl⟩

/-- A chain that runs back into the visited set makes the resolver fail
with `CyclicExtendsError`, given fuel beyond the chain length. -/
lemma hits_cyclic (root : SVal) {visited : List Path} {p : Path} {qs : List Path}
    (h : HitsChain root visited p qs) :
    ∀ (fuel : Nat) (v : SVal), lookupPath root p = some v → qs.length < fuel →
      resolveVal root fuel v visited = .error .cyclicExtends := by
  induction h with
  | base visited2 p2 props q hl hm =>
    intro fuel v hv hlen
    rw [hl] at hv
    cases hv
    cases fuel with
    | zero => exact absurd hlen (Nat.not_lt_zero _)
    | succ f =>
      simp only [resolveVal]
      rw [if_pos hm]
  | step visited2 p2 props q qs2 hl hn hsub ih =>
    intro fuel v hv hlen
    rw [hl] at hv
    cases hv
    cases fuel with
    | zero => exact absurd hlen (Nat.not_lt_zero _)
    | succ f =>
      obtain ⟨props2, q2, hl2⟩ := hitsLookup hsub
      have herr := ih f _ hl2 (by simpa using Nat.lt_of_succ_lt_succ hlen)
      simp only [resolveVal]
      rw [if_neg hn]
      simp only [hl2, herr, Except.bind]

/-- Key-prefixed membership in the valid paths of a property list. -/
theorem findProp_validPathsProps : ∀ (props : SProps) (k : String) (v : SVal) (rest : Path),
    findProp k props = some v → rest ∈ validPaths v → (k :: rest) ∈ validPathsProps props
  | .nil, k, v, rest => by
    intro h _
    simp [findProp] at h
  | .cons k2 v2 props2, k, v, rest => by
    intro hf hm
    by_cases hk : k2 = k
    · subst hk
      simp only [findProp, if_pos trivial, if_true, Option.some.injEq] at hf
      subst hf
      simp only [validPathsProps]
      exact List.mem_append_left _ (List.mem_map.mpr ⟨rest, hm, rfl⟩)
    · simp only [findProp, if_neg hk] at hf
      simp only [validPathsProps]
      exact List.mem_append_right _ (findProp_validPathsProps props2 k v rest hf hm)

/-- A path where lookup succeeds is one of the value's valid paths. -/
theorem lookup_mem_validPaths : ∀ (p : Path) (v w : SVal),
    lookupPath v p = some w → p ∈ validPaths v
  | [], v, w => by
    intro _
    cases v with
    | num n => simp [validPaths]
    | str s => simp [validPaths]
    | node n =>
      cases n with
      | mk e props => simp [validPaths]
  | k :: rest, v, w => by
    intro h
    cases v with
    | num n => simp [lookupPath] at h
    | str s => simp [lookupPath] at h
    | node n =>
      cases n with
      | mk e props =>
        simp only [lookupPath] at h
        cases hf : findProp k props with
        | none =>
          rw [hf] at h
          exact Option.noConfusion h
        | some v2 =>
          rw [hf] at h
          have hrest := lookup_mem_validPaths rest v2 w h
          simp only [validPaths]
          exact List.mem_cons_of_mem _ (findProp_validPathsProps props k v2 rest hf hrest)

mutual

/-- There are no more valid paths than value occurrences. -/
theorem validPaths_length_le : ∀ (v : SVal), (validPaths v).length ≤ svalSize v
  | .num n => by simp [validPaths, svalSize]
  | .str s => by simp [validPaths, svalSize]
  | .node (.mk e props) => by
    have h := validPathsProps_length_le props
    simp only [validPaths, svalSize, List.length_cons]
    omega

/-- Property-list form of `validPaths_length_le`. -/
theorem validPathsProps_length_le : ∀ (ps : SProps), (validPathsProps ps).length ≤ spropsSize ps
  | .nil => by simp [validPathsProps, spropsSize]
  | .cons k v rest => by
    have h1 := validPaths_length_le v
    have h2 := validPathsProps_length_le rest
    simp only [validPathsProps, spropsSize, List.length_append, List.length_map]
    omega

end

/-- Every element of a cyclic chain is a path where lookup succeeds. -/
lemma hits_elems_valid (root : SVal) {visited : List Path} {p : Path} {qs : List Path}
    (h : HitsChain root visited p qs) :
    ∀ q ∈ qs, ∃ w, lookupPath root q = some w := by
  induction h with
  | base visited2 p2 props q hl hm =>
    intro x hx
    exact absurd hx (List.not_mem_nil x)
  | step visited2 p2 props q qs2 hl hn hsub ih =>
    intro x hx
    rcases List.mem_cons.mp hx with rfl | hx2
    · obtain ⟨props2, q2, hl2⟩ := hitsLookup hsub
      exact ⟨_, hl2⟩
    · exact ih x hx2

/-- A cyclic chain never repeats a path and stays clear of the initial
visited set. -/
lemma hits_nodup (root : SVal) {visited : List Path} {p : Path} {qs : List Path}
    (h : HitsChain root visited p qs) :
    qs.Nodup ∧ ∀ q ∈ qs, q ∉ visited := by
  induction h with
  | base visited2 p2 props q hl hm =>
    exact ⟨List.nodup_nil, fun x hx => absurd hx (List.not_mem_nil x)⟩
  | step visited2 p2 props q qs2 hl hn hsub ih =>
    obtain ⟨hnd, hdisj⟩ := ih
    constructor
    · refine List.nodup_cons.mpr ⟨?_, hnd⟩
      intro hq
      exact (hdisj q hq) (List.mem_cons_self q visited2)
    · intro x hx
      rcases List.mem_cons.mp hx with rfl | hx2
      · exact hn
      · intro hxv
        exact (hdisj x hx2) (List.mem_cons_of_mem q hxv)

/-- A cyclic chain is shorter than the fuel budget: its paths are distinct
valid paths of the tree, of which there are at most `svalSize root`. -/
lemma hits_length_lt (root : SVal) (p : Path) (qs : List Path)
    (h : HitsChain root [p] p qs) : qs.length < initFuel root := by
  obtain ⟨props, q, hl⟩ := hitsLookup h
  have hpval : p ∈ validPaths root := lookup_mem_validPaths p root _ hl
  obtain ⟨hnd, hdisj⟩ := hits_nodup root h
  have hpnot : p ∉ qs := fun hp => (hdisj p hp) (by simp)
  have hnodup : (p :: qs).Nodup := List.nodup_cons.mpr ⟨hpnot, hnd⟩
  have hsubset : ∀ x ∈ p :: qs, x ∈ validPaths root := by
    intro x hx
    rcases List.mem_cons.mp hx with rfl | hx2
    · exact hpval
    · obtain ⟨w, hw⟩ := hits_elems_valid root h x hx2
      exact lookup_mem_validPaths x root w hw
  have hlen : (p :: qs).length ≤ svalSize root := by
    calc (p :: qs).length = (p :: qs).toFinset.card :=
          (List.toFinset_card_of_nodup hnodup).symm
      _ ≤ (validPaths root).toFinset.card := by
          refine Finset.card_le_card ?_
          intro x hx
          rw [List.mem_toFinset] at hx ⊢
          exact hsubset x hx
      _ ≤ (validPaths root).length := List.toFinset_card_le _
      _ ≤ svalSize root := validPaths_length_le root
  have h1 : qs.length + 1 ≤ svalSize root := by simpa using hlen
  have hsq : svalSize root ≤ svalSize root * svalSize root :=
    Nat.le_mul_of_pos_left _ (by omega)
  unfold initFuel
  omega

/-- C6: on every style tree whose `extends` chain from a node runs into a
cycle — mutual two-node cycles, longer cycles, and self-reference alike,
stated as `HitsChain` — resolving that node fails with
`CyclicExtendsError`.  Termination is structural: the resolver is a total
function, so it can neither loop forever nor overflow. -/
theorem cyclic_extends_detected (root : SVal) (p : Path) (qs : List Path)
    (h : HitsChain root [p] p qs) :
    resolveAt root p = .error .cyclicExtends := by
  obtain ⟨props, q, hl⟩ := hitsLookup h
  have hlen := hits_length_lt root p qs h
  unfold resolveAt
  simp only [hl]
  exact hits_cyclic root h (initFuel root) _ hl hlen

/-- Witness for C6: the two-node cycle `x ↔ y` and the self-reference
`s → s` both fail with `CyclicExtendsError`. -/
theorem cyclic_extends_detected_witness :
    resolveAt treeXY ["x"] = .error .cyclicExtends ∧
    resolveAt treeSelf ["s"] = .error .cyclicExtends := by
  constructor
  · exact cyclic_extends_detected treeXY ["x"] [["y"]]
      (HitsChain.step [["x"]] ["x"] .nil ["y"] [] rfl (by decide)
        (HitsChain.base [["y"], ["x"]] ["y"] .nil ["x"] rfl (by decide)))
  · exact cyclic_extends_detected treeSelf ["s"] []
      (HitsChain.base [["s"]] ["s"] .nil ["s"] rfl (by decide))

/-- The own value wins outright over an inherited scalar-or-mismatched
value: merging with a string own value yields that string. -/
lemma mergeVal_str (v : SVal) (s : String) : mergeVal v (.str s) = .str s := by
  cases v with
  | num n => rfl
  | str s2 => rfl
  | node n => cases n with | mk e ps => rfl

/-- C1: inheritance is override-wins with key-by-key nested merging.  When
node `A` extends node `B` and declares key `k` with a scalar value, the
resolved `A.k` is `A`'s own declared value whatever `B` declares; the deep
merge keeps a both-sides key as `mergeVal inherited own` (own winning on
scalars), keeps inherited-only keys, and merges node-with-node collisions
key-by-key rather than replacing the nested object wholesale. -/
theorem extends_override_wins :
    (∀ (root : SVal) (pA pB : Path) (propsA r : SProps) (k s : String),
      lookupPath root pA = some (.node (.mk (some pB) propsA)) →
      findProp k propsA = some (.str s) →
      resolveAt root pA = .ok (.node (.mk none r)) →
      findProp k r = some (.str s)) ∧
    (∀ (inh own : SProps) (k : String) (v w : SVal),
      findProp k inh = some v → findProp k own = some w →
      findProp k (deepMergeProps inh own) = some (mergeVal v w)) ∧
    (∀ (inh own : SProps) (k : String),
      findProp k own = none →
      findProp k (deepMergeProps inh own) = findProp k inh) ∧
    (∀ (e1 e2 : Option Path) (ps qs : SProps),
      mergeVal (.node (.mk e1 ps)) (.node (.mk e2 qs)) =
        .node (.mk none (deepMergeProps ps qs))) ∧
    (∀ (v : SVal) (s : String), mergeVal v (.str s) = .str s) := by
  refine ⟨?_, ?_, ?_, fun e1 e2 ps qs => rfl, mergeVal_str⟩
  · intro root pA pB propsA r k s hA hk hres
    unfold resolveAt at hres
    simp only [hA] at hres
    rw [show initFuel root = svalSize root * svalSize root + 1 from rfl] at hres
    simp only [resolveVal] at hres
    by_cases hmem : pB ∈ [pA]
    · rw [if_pos hmem] at hres
      exact Except.noConfusion hres
    · rw [if_neg hmem] at hres
      cases hlk : lookupPath root pB with
      | none =>
        simp only [hlk] at hres
        exact Except.noConfusion hres
      | some target =>
        simp only [hlk] at hres
        cases hrt : resolveVal root (svalSize root * svalSize root) target (pB :: [pA]) with
        | error e =>
          simp only [hrt, Except.bind] at hres
          exact Except.noConfusion hres
        | ok rt =>
          simp only [hrt, Except.bind] at hres
          cases hops : resolveProps root (svalSize root * svalSize root) propsA with
          | error e =>
            simp only [hops, Except.map] at hres
            exact Except.noConfusion hres
          | ok own =>
            simp only [hops, Except.map, Except.ok.injEq] at hres
            have hfind : findProp k own = some (.str s) :=
              resolveProps_findProp_str root propsA _ own k s hops hk
            cases rt with
            | num n =>
              injection hres with h1
              injection h1 with h2 h3
              subst h3
              exact hfind
            | str s2 =>
              injection hres with h1
              injection h1 with h2 h3
              subst h3
              exact hfind
            | node n2 =>
              cases n2 with
              | mk e2 rtProps =>
                injection hres with h1
                injection h1 with h2 h3
                subst h3
                rw [findProp_deepMerge]
                cases hfi : findProp k rtProps with
                | none => simp [hfi, hfind]
                | some v2 =>
                  simp only [hfi, hfind, mergeVal_str]
  · intro inh own k v w hv hw
    rw [findProp_deepMerge, hv, hw]
  · intro inh own k hnone
    rw [findProp_deepMerge, hnone]
    cases hfi : findProp k inh with
    | none => simp [hnone]
    | some v => rfl

/-- Witness for C1: in `treeAB`, node `a` extends `b`, both declare `k`,
and the resolved `a.k` is `a`'s own value `"A"` (with the nested `n`
merged key-by-key, per `treeABresA`). -/
theorem extends_override_wins_witness :
    lookupPath treeAB ["a"] = some (.node (.mk (some ["b"]) treeABownA)) ∧
    findProp "k" treeABownA = some (.str "A") ∧
    resolveAt treeAB ["a"] = .ok (.node (.mk none treeABresA)) ∧
    findProp "k" treeABresA = some (.str "A") := by
  refine ⟨rfl, rfl, rfl, ?_⟩
  exact extends_override_wins.1 treeAB ["a"] ["b"] treeABownA treeABresA "k" "A" rfl rfl rfl

end Zed
